import Mathlib

/-! MPL3115A2 driver (src/MPL3115A2.cpp).

A shallow embedding of the one-shot driver for the MPL3115A2 barometric
pressure / altitude / temperature sensor, and the properties of it that the
specification states.

The bus transport (libi2c over /dev/i2c-N) is external to the driver.  It is
modelled by the results it hands back: a `Bus` carries the results that the
successive calls of `i2c_smbus_read_byte_data` and of
`i2c_smbus_read_i2c_block_data` will give, so that every behaviour of the
device along one run of the (sequential, deterministic) driver is one such
script.  Every bus operation the driver performs is recorded in a trace.  A
polling loop that uses up the script without leaving is a run that has not
returned: the operation is then `none`.

The value a measurement returns is a `float`; the embedding carries the raw
unsigned 32-bit integer and the rational number the returned `float` stands
for.  For altitude and temperature the quotient by the power-of-two divisor is
exact; for pressure the quotient by 6400 is rounded, to `double` by the
division and to `float` on return.
-/

namespace MPL3115A2

/-! ## Machine integers -/

/-- Conversion of the `__s32` result of a bus read to `std::uint8_t`. -/
def toU8 (x : Int) : Nat := (x % 256).toNat

/-- Wrap of an unsigned 32-bit result. -/
def u32 (n : Nat) : Nat := n % 2 ^ 32

/-- Bitwise AND of the `__s32` result of a bus read (two's complement, 32 bits)
with a non-negative mask; the result is non-negative. -/
def land32 (x : Int) (mask : Nat) : Nat := (x % 2 ^ 32).toNat &&& mask

/-- Assignment `reg.bit.F = v` to a one-bit field at position `pos` of the
8-bit register union: the low bit of `v` replaces bit `pos`. -/
def assignBit (reg : Nat) (pos : Fin 8) (v : Nat) : Nat :=
  (reg &&& (255 ^^^ (1 <<< pos.val))) ||| ((v % 2) <<< pos.val)

/-! ## Declarations of MPL3115A2.hpp

The header is not among the sources.  Its register addresses, bit masks, the
positions of the bit fields `ALT` and `OST` inside `_ctrl_reg1`, and the
default argument of `_await_completion` are parameters of the embedding. -/

/-- The constants of MPL3115A2.hpp that the driver code uses. -/
structure Header where
  WHO_AM_I : Nat
  CTRL_REG1 : Nat
  PT_DATA_CFG : Nat
  STATUS : Nat
  OUT_P_MSB : Nat
  CTRL_REG1_RST : Nat
  CTRL_REG1_OS128 : Nat
  CTRL_REG1_ALT : Nat
  PT_DATA_CFG_TDEFE : Nat
  PT_DATA_CFG_PDEFE : Nat
  PT_DATA_CFG_DREM : Nat
  /-- Position of the one-bit field `_ctrl_reg1.bit.ALT`. -/
  altBit : Fin 8
  /-- Position of the one-bit field `_ctrl_reg1.bit.OST`. -/
  ostBit : Fin 8
  /-- Default argument of `_await_completion`. -/
  defaultStatus : Nat
  deriving Repr, DecidableEq

/-- The values of the NXP data sheet the source file refers to: registers
STATUS 0x00, OUT_P_MSB 0x01, WHO_AM_I 0x0C, PT_DATA_CFG 0x13, CTRL_REG1 0x26;
CTRL_REG1 bits ALT 7, RAW 6, OS 5..3, RST 2, OST 1, SBYB 0; status bits
PTDR 3, PDR 2, TDR 1. -/
def datasheet : Header where
  WHO_AM_I := 0x0C
  CTRL_REG1 := 0x26
  PT_DATA_CFG := 0x13
  STATUS := 0x00
  OUT_P_MSB := 0x01
  CTRL_REG1_RST := 0x04
  CTRL_REG1_OS128 := 0x38
  CTRL_REG1_ALT := 0x80
  PT_DATA_CFG_TDEFE := 0x01
  PT_DATA_CFG_PDEFE := 0x02
  PT_DATA_CFG_DREM := 0x04
  altBit := 7
  ostBit := 1
  defaultStatus := 0x0E

/-! ## Floating point

`float` is IEEE 754 binary32 and `double` is binary64, results are rounded to
nearest, ties to even, and an expression is evaluated in the precision of its
type.  A finite value is `m * 2^(-k)`.  Rounding is to a number of significant
bits with no limit on the exponent: it is the rounding of the format wherever
the result lies in the normal range of the format. -/

/-- A binary floating-point value `m * 2^(-k)`. -/
structure Dyadic where
  m : Nat
  k : Int
  deriving Repr, DecidableEq

/-- The rational number a floating-point value stands for. -/
def Dyadic.toRat (x : Dyadic) : ℚ := (x.m : ℚ) * (2 : ℚ) ^ (-x.k)

/-- Floor of the binary logarithm by repeated halving, with fuel. -/
def log2Fuel : Nat → Nat → Nat
  | 0, _ => 0
  | fuel + 1, n => if n < 2 then 0 else log2Fuel fuel (n / 2) + 1

/-- Floor of the binary logarithm of a positive natural number. -/
def ilog2 (n : Nat) : Nat := log2Fuel n n

/-- The binary exponent of the positive fraction `n / d`: the `e` with
`2^e ≤ n / d < 2^(e+1)`. -/
def expo (n d : Nat) : Int :=
  if d * 2 ^ ilog2 n ≤ n * 2 ^ ilog2 d then (ilog2 n : Int) - ilog2 d
  else (ilog2 n : Int) - ilog2 d - 1

/-- The integer nearest to `a / b`, a tie going to the even one. -/
def roundHalfEven (a b : Nat) : Nat :=
  if 2 * (a % b) < b then a / b
  else if b < 2 * (a % b) then a / b + 1
  else if (a / b) % 2 = 0 then a / b else a / b + 1

/-- The fraction `n / d` rounded to `prec` significant bits, to nearest, ties
to even: the fraction is scaled by `2^k` so that it lies in
`[2^(prec-1), 2^prec)` and rounded to an integer there. -/
def roundFrac (prec : Nat) (n d : Nat) : Dyadic :=
  if n = 0 then ⟨0, 0⟩
  else if 0 ≤ (prec : Int) - 1 - expo n d then
    ⟨roundHalfEven (n * 2 ^ ((prec : Int) - 1 - expo n d).toNat) d, (prec : Int) - 1 - expo n d⟩
  else
    ⟨roundHalfEven n (d * 2 ^ (-((prec : Int) - 1 - expo n d)).toNat), (prec : Int) - 1 - expo n d⟩

/-- Numerator of a floating-point value as a fraction of natural numbers. -/
def Dyadic.num (x : Dyadic) : Nat := if 0 ≤ x.k then x.m else x.m * 2 ^ (-x.k).toNat

/-- Denominator of a floating-point value as a fraction of natural numbers. -/
def Dyadic.den (x : Dyadic) : Nat := if 0 ≤ x.k then 2 ^ x.k.toNat else 1

/-- The conversion `float(p)` of a `std::uint32_t`: rounding to 24 bits. -/
def floatOfU32 (p : Nat) : Dyadic := roundFrac 24 p 1

/-- The division `x / c` of a `float` by a `double` constant `c` that is a
natural number: the `float` is promoted to `double` unchanged and the quotient
is rounded to 53 bits. -/
def doubleDiv (x : Dyadic) (c : Nat) : Dyadic := roundFrac 53 x.num (x.den * c)

/-- The conversion of a `double` to the return type `float`: rounding to 24
bits. -/
def floatOfDouble (x : Dyadic) : Dyadic := roundFrac 24 x.num x.den

/-- The `float` that `return float(p) / 6400.0;` yields for the raw integer. -/
def pressureFloat (p : Nat) : Dyadic := floatOfDouble (doubleDiv (floatOfU32 p) 6400)

/-! ## Output block and decoding -/

/-- The 5-byte output block `buffer[0..4]`. -/
structure Block where
  b0 : Nat
  b1 : Nat
  b2 : Nat
  b3 : Nat
  b4 : Nat
  deriving Repr, DecidableEq

/-- Every entry of the block is a byte. -/
def Block.valid (b : Block) : Prop :=
  b.b0 < 256 ∧ b.b1 < 256 ∧ b.b2 < 256 ∧ b.b3 < 256 ∧ b.b4 < 256

instance (b : Block) : Decidable b.valid := by
  unfold Block.valid; infer_instance

/-- The `std::uint32_t p` of `pressure()`: each product and each sum is
unsigned 32-bit arithmetic. -/
def pressureRaw (b : Block) : Nat :=
  u32 (u32 (u32 (b.b0 * 65536) + u32 (b.b1 * 256)) + b.b2)

/-- The `std::uint32_t a` of `altitude()`. -/
def altitudeRaw (b : Block) : Nat :=
  u32 (u32 (u32 (b.b0 * 16777216) + u32 (b.b1 * 65536)) + u32 (b.b2 * 256))

/-- The `std::uint32_t t` of `temperature()`. -/
def temperatureRaw (b : Block) : Nat :=
  u32 (u32 (b.b3 * 256) + b.b4)

/-- The value `float(p) / 6400.0` that `pressure()` returns: the `float`
obtained by the double division and the conversion to the return type, as the
rational number it stands for. -/
def pressureValue (b : Block) : ℚ := (pressureFloat (pressureRaw b)).toRat

/-- The value `float(a) / 65536.0`: the quotient is exact in `float`, the raw
integer being 256 times a number below 2^24 and the divisor a power of two. -/
def altitudeValue (b : Block) : ℚ := (altitudeRaw b : ℚ) / 65536

/-- The value `float(t) / 256.0`: the quotient is exact in `float`, the raw
integer being below 2^16 and the divisor a power of two. -/
def temperatureValue (b : Block) : ℚ := (temperatureRaw b : ℚ) / 256

/-! ## Bus and driver state -/

/-- One operation on the transport, as the driver issues it. -/
inductive Event where
  | openDev (bus : Int) (result : Int)
  | ioctlSlave (addr : Nat) (result : Int)
  | readByte (reg : Nat) (result : Int)
  | writeByte (reg : Nat) (value : Nat)
  | readBlock (reg : Nat) (len : Nat) (result : Option Block)
  | sleep5ms
  deriving Repr, DecidableEq

/-- The transport as the driver sees it. -/
structure Bus where
  /-- The open transport handles (file descriptors). -/
  handles : List Int
  /-- Results of the coming calls of `i2c_smbus_read_byte_data`: a byte 0..255,
  or a negative error value. -/
  bytes : List Int
  /-- Results of the coming calls of `i2c_smbus_read_i2c_block_data`: the block
  delivered, or `none` for a failed read, which leaves the caller's buffer as
  it was. -/
  blocks : List (Option Block)
  /-- The operations issued so far, oldest first. -/
  trace : List Event
  deriving Repr, DecidableEq

/-- The data members of the driver object. -/
structure Driver where
  smbus : Int
  address : Nat
  /-- The shadow `_ctrl_reg1.reg`. -/
  ctrl_reg1 : Nat
  buffer : Block
  deriving Repr, DecidableEq

/-- The errors the constructor throws, by their message. -/
inductive Error where
  /-- Message: Device does not exist -/
  | deviceDoesNotExist
  /-- Message: Address not found -/
  | addressNotFound
  /-- Message: Not a MPL3115A2 -/
  | notAMPL3115A2
  deriving Repr, DecidableEq

/-- Record one operation in the trace. -/
def Bus.log (w : Bus) (e : Event) : Bus := { w with trace := w.trace ++ [e] }

/-- `i2c_smbus_read_byte_data`: the next scripted result. -/
def readByteData (w : Bus) (reg : Nat) : Option (Int × Bus) :=
  match w.bytes with
  | [] => none
  | r :: rs => some (r, { w with bytes := rs, trace := w.trace ++ [Event.readByte reg r] })

/-- `i2c_smbus_write_byte_data`; its result is ignored by every caller. -/
def writeByteData (w : Bus) (reg : Nat) (value : Nat) : Bus :=
  w.log (Event.writeByte reg (value % 256))

/-- `i2c_smbus_read_i2c_block_data` into `buffer`; its result is ignored by
every caller.  A failed read leaves the buffer as it was. -/
def readBlockData (w : Bus) (reg len : Nat) (buffer : Block) : Option (Block × Bus) :=
  match w.blocks with
  | [] => none
  | r :: rs =>
    some (r.getD buffer,
      { w with blocks := rs, trace := w.trace ++ [Event.readBlock reg len r] })

/-! ## The driver -/

/-- The loop `while (read(CTRL_REG1) & CTRL_REG1_RST) nanosleep(5 ms)` of the
constructor, on the results the reads will give. Returns the results left
over and the extended trace. -/
def resetWaitLoop (H : Header) : List Int → List Event → Option (List Int × List Event)
  | [], _ => none
  | r :: rs, tr =>
    if land32 r H.CTRL_REG1_RST ≠ 0 then
      resetWaitLoop H rs (tr ++ [Event.readByte H.CTRL_REG1 r, Event.sleep5ms])
    else
      some (rs, tr ++ [Event.readByte H.CTRL_REG1 r])

/-- The reset wait of the constructor on a bus. -/
def resetWait (H : Header) (w : Bus) : Option Bus :=
  (resetWaitLoop H w.bytes w.trace).map fun p => { w with bytes := p.1, trace := p.2 }

/-- The constructor `MPL3115A2::MPL3115A2(int smbus, std::uint8_t address)`.
`openResult` and `ioctlResult` are what `open` and `ioctl(I2C_SLAVE)` return;
`buffer` is the content of the uninitialised member `buffer`.  The outer
`Option` is `none` for a run that has not returned; `Except.error` is a thrown
exception.  No exit of the constructor calls `close`: the destructor does not
run for an object whose constructor throws. -/
def construct (H : Header) (smbus : Int) (address : Nat) (openResult ioctlResult : Int)
    (buffer : Block) (w : Bus) : Option (Except Error Driver × Bus) :=
  let w := w.log (Event.openDev smbus openResult)
  if openResult < 0 then
    some (Except.error Error.deviceDoesNotExist, w)
  else
    let w := { w with handles := openResult :: w.handles }
    let w := w.log (Event.ioctlSlave (address % 256 &&& 0x7f) ioctlResult)
    if ioctlResult < 0 then
      some (Except.error Error.addressNotFound, w)
    else
      match readByteData w H.WHO_AM_I with
      | none => none
      | some (r, w) =>
        if toU8 r ≠ 0xc4 then
          some (Except.error Error.notAMPL3115A2, w)
        else
          let w := writeByteData w H.CTRL_REG1 H.CTRL_REG1_RST
          match resetWait H w with
          | none => none
          | some w =>
            let reg := (H.CTRL_REG1_OS128 ||| H.CTRL_REG1_ALT) % 256
            let w := writeByteData w H.CTRL_REG1 reg
            let w := writeByteData w H.PT_DATA_CFG
              (H.PT_DATA_CFG_TDEFE ||| H.PT_DATA_CFG_PDEFE ||| H.PT_DATA_CFG_DREM)
            some (Except.ok ⟨openResult, address % 256, reg, buffer⟩, w)

/-- The destructor `MPL3115A2::~MPL3115A2()`: closes the handle. -/
def destruct (d : Driver) (w : Bus) : Bus :=
  { w with handles := w.handles.erase d.smbus }

/-- `MPL3115A2::_set_mode(std::uint8_t mode)`. -/
def _set_mode (H : Header) (mode : Nat) (d : Driver) (w : Bus) : Option (Driver × Bus) :=
  match readByteData w H.CTRL_REG1 with
  | none => none
  | some (r, w) =>
    let reg := assignBit (toU8 r) H.altBit mode
    some ({ d with ctrl_reg1 := reg }, writeByteData w H.CTRL_REG1 reg)

/-- The loop `while (_ctrl_reg1.bit.OST) { nanosleep; _ctrl_reg1.reg = read }`
of `_one_shot`, on the shadow value and the results the reads will give.
Returns the shadow value on exit, the results left over and the trace. -/
def oneShotLoop (H : Header) : List Int → Nat → List Event → Option (Nat × List Int × List Event)
  | [], reg, tr => if reg.testBit H.ostBit then none else some (reg, [], tr)
  | r :: rs, reg, tr =>
    if reg.testBit H.ostBit then
      oneShotLoop H rs (toU8 r) (tr ++ [Event.sleep5ms, Event.readByte H.CTRL_REG1 r])
    else
      some (reg, r :: rs, tr)

/-- `MPL3115A2::_one_shot()`. -/
def _one_shot (H : Header) (d : Driver) (w : Bus) : Option (Driver × Bus) :=
  match readByteData w H.CTRL_REG1 with
  | none => none
  | some (r, w) =>
    match oneShotLoop H w.bytes (toU8 r) w.trace with
    | none => none
    | some (reg, rs, tr) =>
      let reg := assignBit reg H.ostBit 1
      some ({ d with ctrl_reg1 := reg },
        writeByteData { w with bytes := rs, trace := tr } H.CTRL_REG1 reg)

/-- The loop of `_await_completion` on the results the reads will give. -/
def awaitLoop (H : Header) (status : Nat) : List Int → List Event → Option (List Int × List Event)
  | [], _ => none
  | r :: rs, tr =>
    if land32 r status = 0 then
      awaitLoop H status rs (tr ++ [Event.readByte H.STATUS r, Event.sleep5ms])
    else
      some (rs, tr ++ [Event.readByte H.STATUS r])

/-- `MPL3115A2::_await_completion(std::uint8_t status)`. -/
def _await_completion (H : Header) (status : Nat) (w : Bus) : Option Bus :=
  (awaitLoop H status w.bytes w.trace).map fun p => { w with bytes := p.1, trace := p.2 }

/-- The common tail of the three measurements: `_one_shot`, `_await_completion`
with its default argument, and the block read into `buffer`. -/
def acquire (H : Header) (d : Driver) (w : Bus) : Option (Driver × Bus) :=
  match _one_shot H d w with
  | none => none
  | some (d, w) =>
    match _await_completion H H.defaultStatus w with
    | none => none
    | some w =>
      match readBlockData w H.OUT_P_MSB 5 d.buffer with
      | none => none
      | some (buf, w) => some ({ d with buffer := buf }, w)

/-- `MPL3115A2::pressure()`: the raw integer `p` and the value returned. -/
def pressure (H : Header) (d : Driver) (w : Bus) : Option ((Nat × ℚ) × Driver × Bus) :=
  match _set_mode H 0 d w with
  | none => none
  | some (d, w) =>
    match acquire H d w with
    | none => none
    | some (d, w) => some ((pressureRaw d.buffer, pressureValue d.buffer), d, w)

/-- `MPL3115A2::altitude()`: the raw integer `a` and the value returned. -/
def altitude (H : Header) (d : Driver) (w : Bus) : Option ((Nat × ℚ) × Driver × Bus) :=
  match _set_mode H 1 d w with
  | none => none
  | some (d, w) =>
    match acquire H d w with
    | none => none
    | some (d, w) => some ((altitudeRaw d.buffer, altitudeValue d.buffer), d, w)

/-- `MPL3115A2::temperature()`: the raw integer `t` and the value returned. -/
def temperature (H : Header) (d : Driver) (w : Bus) : Option ((Nat × ℚ) × Driver × Bus) :=
  match acquire H d w with
  | none => none
  | some (d, w) => some ((temperatureRaw d.buffer, temperatureValue d.buffer), d, w)

/-! ## Traces of the polling loops -/

/-- The trace of polling register `reg` with the results `vs`, a sleep after
each read. -/
def polls (reg : Nat) : List Int → List Event
  | [] => []
  | v :: vs => Event.readByte reg v :: Event.sleep5ms :: polls reg vs

/-- The trace of the body of the loop of `_one_shot`: a sleep before each read. -/
def sleepReads (reg : Nat) : List Int → List Event
  | [] => []
  | v :: vs => Event.sleep5ms :: Event.readByte reg v :: sleepReads reg vs

/-! ## Counting operations in a trace -/

/-- The operation is a register write. -/
def Event.isWrite : Event → Bool
  | Event.writeByte _ _ => true
  | _ => false

/-- The operation is a byte read of register `reg`. -/
def Event.isReadOf (reg : Nat) : Event → Bool
  | Event.readByte q _ => q == reg
  | _ => false

/-- The operation is a block read. -/
def Event.isBlockRead : Event → Bool
  | Event.readBlock _ _ _ => true
  | _ => false

/-! ## Traces of the pipeline -/

/-- The operations of `_set_mode(mode)` when the register read gives `r0`. -/
def modeTrace (H : Header) (r0 : Int) (mode : Nat) : List Event :=
  [Event.readByte H.CTRL_REG1 r0,
   Event.writeByte H.CTRL_REG1 (assignBit (toU8 r0) H.altBit mode)]

/-- The operations of `_one_shot`, `_await_completion` and the block read when
the control register reads give `pre` and then `r`, the status reads give
`spre` and then `s`, and the block read gives `blk`. -/
def acquireTrace (H : Header) (pre : List Int) (r : Int) (spre : List Int) (s : Int)
    (blk : Option Block) : List Event :=
  polls H.CTRL_REG1 pre ++
    [Event.readByte H.CTRL_REG1 r,
     Event.writeByte H.CTRL_REG1 (assignBit (toU8 r) H.ostBit 1)] ++
  polls H.STATUS spre ++
    [Event.readByte H.STATUS s, Event.readBlock H.OUT_P_MSB 5 blk]

/-! ## Sample inputs -/

/-- A driver on handle 3 at address 0x60 whose shadow holds the configuration
the constructor wrote and whose buffer is zero. -/
def sampleDriver : Driver := ⟨3, 0x60, 0xB8, ⟨0, 0, 0, 0, 0⟩⟩

/-- A bus with handle 3 open, an empty trace, and the given read results. -/
def sampleBus (bytes : List Int) (blocks : List (Option Block)) : Bus :=
  ⟨[3], bytes, blocks, []⟩

/-! ## Lemmas: floating point -/

theorem log2Fuel_spec : ∀ fuel n : Nat, n ≤ fuel → 1 ≤ n →
    2 ^ log2Fuel fuel n ≤ n ∧ n < 2 ^ (log2Fuel fuel n + 1)
  | 0, n, h, h1 => by omega
  | fuel + 1, n, h, h1 => by
    by_cases h2 : n < 2
    · have : n = 1 := by omega
      subst this
      simp [log2Fuel]
    · have ih := log2Fuel_spec fuel (n / 2) (by omega) (by omega)
      simp only [log2Fuel, if_neg h2]
      rw [pow_succ, pow_succ 2 (log2Fuel fuel (n / 2) + 1)]
      omega

theorem ilog2_spec (n : Nat) (h : 1 ≤ n) : 2 ^ ilog2 n ≤ n ∧ n < 2 ^ (ilog2 n + 1) :=
  log2Fuel_spec n n (Nat.le_refl n) h

theorem roundHalfEven_near (a b : Nat) (hb : 0 < b) :
    2 * (roundHalfEven a b * b) ≤ 2 * a + b ∧ 2 * a ≤ 2 * (roundHalfEven a b * b) + b := by
  have hdm : b * (a / b) + a % b = a := Nat.div_add_mod a b
  have hlt : a % b < b := Nat.mod_lt a hb
  have hc : a / b * b = b * (a / b) := Nat.mul_comm _ _
  unfold roundHalfEven
  split_ifs <;> simp only [Nat.add_mul, Nat.one_mul, hc] <;> omega

theorem roundHalfEven_err (a b : Nat) (hb : 0 < b) :
    |((roundHalfEven a b : ℕ) : ℚ) - (a : ℚ) / b| ≤ 1 / 2 := by
  obtain ⟨h1, h2⟩ := roundHalfEven_near a b hb
  have hbq : (0 : ℚ) < b := by exact_mod_cast hb
  have k1 : (2 * ((roundHalfEven a b : ℕ) * b) : ℚ) ≤ 2 * a + b := by exact_mod_cast h1
  have k2 : (2 * a : ℚ) ≤ 2 * ((roundHalfEven a b : ℕ) * b) + b := by exact_mod_cast h2
  rw [abs_le]
  constructor
  · have : (a : ℚ) / b ≤ (roundHalfEven a b : ℕ) + 1 / 2 := by
      rw [div_le_iff₀ hbq]
      linarith
    linarith
  · have : ((roundHalfEven a b : ℕ) : ℚ) - 1 / 2 ≤ (a : ℚ) / b := by
      rw [le_div_iff₀ hbq]
      linarith
    linarith

theorem expo_le (n d : Nat) (hn : 1 ≤ n) (hd : 1 ≤ d) : (2 : ℚ) ^ expo n d ≤ (n : ℚ) / d := by
  obtain ⟨hn1, -⟩ := ilog2_spec n hn
  obtain ⟨-, hd2⟩ := ilog2_spec d hd
  have hdq : (0 : ℚ) < d := by exact_mod_cast hd
  unfold expo
  split_ifs with h
  · rw [zpow_sub₀ (two_ne_zero), zpow_natCast, zpow_natCast, div_le_div_iff₀ (by positivity) hdq]
    have : ((2 ^ ilog2 n * d : ℕ) : ℚ) ≤ ((n * 2 ^ ilog2 d : ℕ) : ℚ) := by
      exact_mod_cast (by rw [Nat.mul_comm]; exact h)
    push_cast at this
    exact this
  · have he : (ilog2 n : Int) - ilog2 d - 1 = (ilog2 n : Int) - ((ilog2 d + 1 : ℕ) : Int) := by
      push_cast; ring
    rw [he, zpow_sub₀ (two_ne_zero), zpow_natCast, zpow_natCast,
      div_le_div_iff₀ (by positivity) hdq]
    have : 2 ^ ilog2 n * d ≤ n * 2 ^ (ilog2 d + 1) := Nat.mul_le_mul hn1 (Nat.le_of_lt hd2)
    have h2 : ((2 ^ ilog2 n * d : ℕ) : ℚ) ≤ ((n * 2 ^ (ilog2 d + 1) : ℕ) : ℚ) := by
      exact_mod_cast this
    push_cast at h2
    exact h2

theorem Dyadic.toRat_eq (x : Dyadic) : x.toRat = (x.num : ℚ) / x.den := by
  unfold Dyadic.toRat Dyadic.num Dyadic.den
  split_ifs with h
  · have hk : ((x.k.toNat : ℕ) : Int) = x.k := Int.toNat_of_nonneg h
    have hP : (2 : ℚ) ^ x.k = (2 : ℚ) ^ x.k.toNat := by rw [← zpow_natCast, hk]
    rw [zpow_neg, hP]
    push_cast
    rw [div_eq_mul_inv]
  · have hk : (((-x.k).toNat : ℕ) : Int) = -x.k := Int.toNat_of_nonneg (by omega)
    have hP : (2 : ℚ) ^ (-x.k) = (2 : ℚ) ^ (-x.k).toNat := by rw [← zpow_natCast, hk]
    rw [hP]
    push_cast
    simp

theorem Dyadic.den_pos (x : Dyadic) : 0 < x.den := by
  unfold Dyadic.den
  split_ifs <;> positivity

theorem roundFrac_err (prec n d : Nat) (hn : 1 ≤ n) (hd : 1 ≤ d) :
    |(roundFrac prec n d).toRat - (n : ℚ) / d| ≤ (2 : ℚ) ^ (expo n d - prec) := by
  have hn0 : n ≠ 0 := by omega
  have hdq : (0 : ℚ) < d := by exact_mod_cast hd
  unfold roundFrac
  rw [if_neg hn0]
  split_ifs with h
  · have hk : ((((prec : Int) - 1 - expo n d).toNat : ℕ) : Int) = (prec : Int) - 1 - expo n d :=
      Int.toNat_of_nonneg h
    have herr := roundHalfEven_err (n * 2 ^ ((prec : Int) - 1 - expo n d).toNat) d hd
    have hP : (2 : ℚ) ^ ((prec : Int) - 1 - expo n d) =
        (2 : ℚ) ^ ((prec : Int) - 1 - expo n d).toNat := by
      rw [← zpow_natCast, hk]
    have hPpos : (0 : ℚ) < (2 : ℚ) ^ ((prec : Int) - 1 - expo n d).toNat := by positivity
    have hgoal : (2 : ℚ) ^ (expo n d - prec) =
        1 / 2 * ((2 : ℚ) ^ ((prec : Int) - 1 - expo n d).toNat)⁻¹ := by
      rw [← hP, ← zpow_neg, show (1 / 2 : ℚ) = (2 : ℚ) ^ (-1 : Int) by norm_num,
        ← zpow_add₀ (two_ne_zero)]
      congr 1
      ring
    simp only [Dyadic.toRat]
    rw [hgoal, zpow_neg, hP]
    push_cast at herr
    have heq : ((roundHalfEven (n * 2 ^ ((prec : Int) - 1 - expo n d).toNat) d : ℕ) : ℚ) *
          ((2 : ℚ) ^ ((prec : Int) - 1 - expo n d).toNat)⁻¹ - (n : ℚ) / d =
        (((roundHalfEven (n * 2 ^ ((prec : Int) - 1 - expo n d).toNat) d : ℕ) : ℚ) -
          (n : ℚ) * 2 ^ ((prec : Int) - 1 - expo n d).toNat / d) *
          ((2 : ℚ) ^ ((prec : Int) - 1 - expo n d).toNat)⁻¹ := by
      field_simp
      ring
    rw [heq, abs_mul, abs_of_pos (inv_pos.mpr hPpos)]
    exact mul_le_mul_of_nonneg_right herr (le_of_lt (inv_pos.mpr hPpos))
  · have hneg : 0 ≤ -((prec : Int) - 1 - expo n d) := by omega
    have hk : ((((-((prec : Int) - 1 - expo n d)).toNat : ℕ)) : Int) =
        -((prec : Int) - 1 - expo n d) := Int.toNat_of_nonneg hneg
    have hdP : 0 < d * 2 ^ (-((prec : Int) - 1 - expo n d)).toNat := by positivity
    have herr := roundHalfEven_err n (d * 2 ^ (-((prec : Int) - 1 - expo n d)).toNat) hdP
    have hP : (2 : ℚ) ^ (-((prec : Int) - 1 - expo n d)) =
        (2 : ℚ) ^ (-((prec : Int) - 1 - expo n d)).toNat := by
      rw [← zpow_natCast, hk]
    have hPpos : (0 : ℚ) < (2 : ℚ) ^ (-((prec : Int) - 1 - expo n d)).toNat := by positivity
    have hgoal : (2 : ℚ) ^ (expo n d - prec) =
        1 / 2 * (2 : ℚ) ^ (-((prec : Int) - 1 - expo n d)).toNat := by
      rw [← hP, show (1 / 2 : ℚ) = (2 : ℚ) ^ (-1 : Int) by norm_num,
        ← zpow_add₀ (two_ne_zero)]
      congr 1
      ring
    simp only [Dyadic.toRat]
    rw [hgoal, hP]
    push_cast at herr
    have heq : ((roundHalfEven n (d * 2 ^ (-((prec : Int) - 1 - expo n d)).toNat) : ℕ) : ℚ) *
          (2 : ℚ) ^ (-((prec : Int) - 1 - expo n d)).toNat - (n : ℚ) / d =
        (((roundHalfEven n (d * 2 ^ (-((prec : Int) - 1 - expo n d)).toNat) : ℕ) : ℚ) -
          (n : ℚ) / (d * 2 ^ (-((prec : Int) - 1 - expo n d)).toNat)) *
          (2 : ℚ) ^ (-((prec : Int) - 1 - expo n d)).toNat := by
      field_simp
      ring
    rw [heq, abs_mul, abs_of_pos hPpos]
    exact mul_le_mul_of_nonneg_right herr (le_of_lt hPpos)

theorem expo_lt_of_lt (n d : Nat) (hn : 1 ≤ n) (hd : 1 ≤ d) (E : Int)
    (h : (n : ℚ) / d < (2 : ℚ) ^ E) : expo n d < E := by
  have h1 := expo_le n d hn hd
  exact (zpow_lt_zpow_iff_right₀ (by norm_num : (1 : ℚ) < 2)).mp (lt_of_le_of_lt h1 h)

theorem roundHalfEven_one (a : Nat) : roundHalfEven a 1 = a := by
  simp [roundHalfEven, Nat.mod_one]

theorem floatOfU32_exact (p : Nat) (hp : p < 2 ^ 24) : (floatOfU32 p).toRat = p := by
  by_cases h0 : p = 0
  · subst h0
    simp [floatOfU32, roundFrac, Dyadic.toRat]
  · obtain ⟨h1, -⟩ := ilog2_spec p (by omega)
    have hlog : ilog2 p < 24 :=
      (Nat.pow_lt_pow_iff_right (by norm_num : 1 < 2)).mp (lt_of_le_of_lt h1 hp)
    have he : expo p 1 = ilog2 p := by
      have h10 : ilog2 1 = 0 := by decide
      unfold expo
      rw [h10, if_pos (by omega)]
      simp
    have hk : (0 : Int) ≤ ((24 : ℕ) : Int) - 1 - expo p 1 := by rw [he]; omega
    have hkk : (((((24 : ℕ) : Int) - 1 - expo p 1).toNat : ℕ) : Int) =
        ((24 : ℕ) : Int) - 1 - expo p 1 := Int.toNat_of_nonneg hk
    have hP : (2 : ℚ) ^ (((24 : ℕ) : Int) - 1 - expo p 1) =
        (2 : ℚ) ^ (((24 : ℕ) : Int) - 1 - expo p 1).toNat := by
      rw [← zpow_natCast, hkk]
    unfold floatOfU32 roundFrac
    rw [if_neg h0, if_pos hk, roundHalfEven_one]
    simp only [Dyadic.toRat]
    rw [zpow_neg, hP]
    push_cast
    rw [mul_assoc, mul_inv_cancel₀ (by positivity), mul_one]

theorem pressureFloat_err (p : Nat) (hp : p < 2 ^ 24) :
    |(pressureFloat p).toRat - (p : ℚ) / 6400| < 1 / 4096 := by
  by_cases h0 : p = 0
  · subst h0
    have : pressureFloat 0 = ⟨0, 0⟩ := by decide
    rw [this]
    norm_num [Dyadic.toRat]
  have hp1 : 1 ≤ p := by omega
  have hpq : (1 : ℚ) ≤ p := by exact_mod_cast hp1
  have hpq2 : (p : ℚ) < 16777216 := by exact_mod_cast hp
  have hx := floatOfU32_exact p hp
  rw [Dyadic.toRat_eq] at hx
  have hxd := Dyadic.den_pos (floatOfU32 p)
  have hxdq : (0 : ℚ) < (floatOfU32 p).den := by exact_mod_cast hxd
  have hxn : 1 ≤ (floatOfU32 p).num := by
    by_contra hc
    have : (floatOfU32 p).num = 0 := by omega
    rw [this, Nat.cast_zero, zero_div] at hx
    exact h0 (by exact_mod_cast hx.symm)
  have hq : (((floatOfU32 p).num : ℕ) : ℚ) / (((floatOfU32 p).den * 6400 : ℕ) : ℚ) =
      (p : ℚ) / 6400 := by
    push_cast
    rw [← div_div, hx]
  have hq4096 : (p : ℚ) / 6400 < (2 : ℚ) ^ (12 : Int) := by
    rw [div_lt_iff₀ (by norm_num)]
    norm_num
    linarith
  have hy := roundFrac_err 53 (floatOfU32 p).num ((floatOfU32 p).den * 6400) hxn (by omega)
  have hey := expo_lt_of_lt (floatOfU32 p).num ((floatOfU32 p).den * 6400) hxn (by omega) 12
    (by rw [hq]; exact hq4096)
  rw [hq] at hy
  have hy2 : |(doubleDiv (floatOfU32 p) 6400).toRat - (p : ℚ) / 6400| ≤ (2 : ℚ) ^ (-42 : Int) := by
    refine le_trans hy (zpow_le_zpow_right₀ (by norm_num) ?_)
    push_cast
    omega
  have h42 : (2 : ℚ) ^ (-42 : Int) = 1 / 4398046511104 := by norm_num
  have h13 : (2 : ℚ) ^ (-13 : Int) = 1 / 8192 := by norm_num
  have h12 : (2 : ℚ) ^ (12 : Int) = 4096 := by norm_num
  rw [h42] at hy2
  rw [h12] at hq4096
  have hq2 : (p : ℚ) / 6400 < 2622 := by
    rw [div_lt_iff₀ (by norm_num)]
    linarith
  obtain ⟨hyl, hyu⟩ := abs_le.mp hy2
  by_cases hyn : (doubleDiv (floatOfU32 p) 6400).num = 0
  · have hz : pressureFloat p = ⟨0, 0⟩ := by
      unfold pressureFloat floatOfDouble roundFrac
      rw [if_pos hyn]
    have hy0 : (doubleDiv (floatOfU32 p) 6400).toRat = 0 := by
      rw [Dyadic.toRat_eq, hyn]
      simp
    rw [hz]
    rw [hy0] at hy2
    have : (⟨0, 0⟩ : Dyadic).toRat = 0 := by simp [Dyadic.toRat]
    rw [this]
    refine lt_of_le_of_lt hy2 ?_
    norm_num
  · have hyn1 : 1 ≤ (doubleDiv (floatOfU32 p) 6400).num := by omega
    have hyd := Dyadic.den_pos (doubleDiv (floatOfU32 p) 6400)
    have hz := roundFrac_err 24 (doubleDiv (floatOfU32 p) 6400).num
      (doubleDiv (floatOfU32 p) 6400).den hyn1 hyd
    have hez := expo_lt_of_lt (doubleDiv (floatOfU32 p) 6400).num
      (doubleDiv (floatOfU32 p) 6400).den hyn1 hyd 12 (by
        rw [← Dyadic.toRat_eq, h12]
        linarith)
    rw [← Dyadic.toRat_eq] at hz
    have hz2 : |(pressureFloat p).toRat - (doubleDiv (floatOfU32 p) 6400).toRat| ≤
        (2 : ℚ) ^ (-13 : Int) := by
      refine le_trans hz (zpow_le_zpow_right₀ (by norm_num) ?_)
      push_cast
      omega
    rw [h13] at hz2
    obtain ⟨hzl, hzu⟩ := abs_le.mp hz2
    rw [abs_lt]
    constructor <;> linarith

/-! ## Lemmas: decoding -/

theorem u32_of_lt {n : Nat} (h : n < 2 ^ 32) : u32 n = n := Nat.mod_eq_of_lt h

theorem pressureRaw_eq (b : Block) (h : b.valid) :
    pressureRaw b = b.b0 * 65536 + b.b1 * 256 + b.b2 := by
  obtain ⟨h0, h1, h2, -, -⟩ := h
  unfold pressureRaw
  rw [u32_of_lt (n := b.b0 * 65536) (by omega), u32_of_lt (n := b.b1 * 256) (by omega),
    u32_of_lt (n := b.b0 * 65536 + b.b1 * 256) (by omega), u32_of_lt (by omega)]

theorem altitudeRaw_eq (b : Block) (h : b.valid) :
    altitudeRaw b = b.b0 * 16777216 + b.b1 * 65536 + b.b2 * 256 := by
  obtain ⟨h0, h1, h2, -, -⟩ := h
  unfold altitudeRaw
  rw [u32_of_lt (n := b.b0 * 16777216) (by omega), u32_of_lt (n := b.b1 * 65536) (by omega),
    u32_of_lt (n := b.b2 * 256) (by omega),
    u32_of_lt (n := b.b0 * 16777216 + b.b1 * 65536) (by omega), u32_of_lt (by omega)]

theorem temperatureRaw_eq (b : Block) (h : b.valid) :
    temperatureRaw b = b.b3 * 256 + b.b4 := by
  obtain ⟨-, -, -, h3, h4⟩ := h
  unfold temperatureRaw
  rw [u32_of_lt (n := b.b3 * 256) (by omega), u32_of_lt (by omega)]

/-! ## Lemmas: machine integers -/

theorem toU8_lt (x : Int) : toU8 x < 256 := by
  unfold toU8
  have h1 : 0 ≤ x % 256 := Int.emod_nonneg x (by norm_num)
  have h2 : x % 256 < 256 := Int.emod_lt_of_pos x (by norm_num)
  omega

theorem toU8_ofNat {n : Nat} (h : n < 256) : toU8 (n : Int) = n := by
  unfold toU8
  omega

theorem toU8_neg_one : toU8 (-1) = 255 := by decide

theorem land32_ofNat {n : Nat} (h : n < 256) (m : Nat) : land32 (n : Int) m = n &&& m := by
  unfold land32
  have : ((n : Int) % 2 ^ 32).toNat = n := by omega
  rw [this]

theorem land32_neg_one {m : Nat} (h : m < 2 ^ 32) : land32 (-1) m = m := by
  unfold land32
  have : ((-1 : Int) % 2 ^ 32).toNat = 2 ^ 32 - 1 := by decide
  rw [this, Nat.land_comm, Nat.and_pow_two_sub_one_eq_mod, Nat.mod_eq_of_lt h]

theorem testBit_255 (i : Nat) : Nat.testBit 255 i = decide (i < 8) :=
  Nat.testBit_two_pow_sub_one 8 i

theorem testBit_mod_two_shift (v p i : Nat) :
    ((v % 2) <<< p).testBit i = (decide (i = p) && decide (v % 2 = 1)) := by
  rw [Nat.testBit_shiftLeft]
  by_cases hip : i = p
  · subst hip
    rcases Nat.mod_two_eq_zero_or_one v with h | h <;> simp [h]
  · by_cases hge : i ≥ p
    · have hlt : v % 2 < 2 ^ (i - p) := by
        have : 2 ^ 1 ≤ 2 ^ (i - p) := Nat.pow_le_pow_right (by norm_num) (by omega)
        omega
      simp [Nat.testBit_lt_two_pow hlt, hip]
    · simp [hge, hip]

theorem assignBit_testBit (r : Nat) (p : Fin 8) (v i : Nat) :
    (assignBit r p v).testBit i =
      if i = p.val then decide (v % 2 = 1) else (decide (i < 8) && r.testBit i) := by
  unfold assignBit
  rw [Nat.testBit_or, Nat.testBit_and, Nat.testBit_xor, testBit_255, Nat.one_shiftLeft,
    Nat.testBit_two_pow, testBit_mod_two_shift]
  have hp := p.isLt
  by_cases hip : i = p.val
  · subst hip
    simp [hp]
  · have : ¬ p.val = i := fun h => hip h.symm
    by_cases h8 : i < 8 <;> simp [hip, this, h8]

theorem assignBit_lt (r : Nat) (p : Fin 8) (v : Nat) : assignBit r p v < 256 := by
  unfold assignBit
  have hp := p.isLt
  have h1 : 255 ^^^ (1 <<< p.val) < 2 ^ 8 := by
    apply Nat.xor_lt_two_pow (by norm_num)
    rw [Nat.one_shiftLeft]
    exact Nat.pow_lt_pow_right (by norm_num) hp
  have h2 : (v % 2) <<< p.val < 2 ^ 8 := by
    rw [Nat.shiftLeft_eq]
    have h3 : 2 ^ p.val ≤ 2 ^ 7 := Nat.pow_le_pow_right (by norm_num) (by omega)
    have h4 : v % 2 < 2 := Nat.mod_lt _ (by norm_num)
    have h5 : v % 2 * 2 ^ p.val ≤ 1 * 2 ^ 7 := Nat.mul_le_mul (by omega) h3
    omega
  exact Nat.or_lt_two_pow (Nat.and_lt_two_pow _ h1) h2

theorem polls_cons (reg : Nat) (v : Int) (vs : List Int) :
    polls reg (v :: vs) = Event.readByte reg v :: Event.sleep5ms :: polls reg vs := rfl

theorem sleepReads_cons (reg : Nat) (v : Int) (vs : List Int) :
    sleepReads reg (v :: vs) = Event.sleep5ms :: Event.readByte reg v :: sleepReads reg vs := rfl

theorem awaitLoop_cons (H : Header) (m : Nat) (r : Int) (rs : List Int) (tr : List Event) :
    awaitLoop H m (r :: rs) tr =
      if land32 r m = 0 then
        awaitLoop H m rs (tr ++ [Event.readByte H.STATUS r, Event.sleep5ms])
      else some (rs, tr ++ [Event.readByte H.STATUS r]) := rfl

theorem resetWaitLoop_cons (H : Header) (r : Int) (rs : List Int) (tr : List Event) :
    resetWaitLoop H (r :: rs) tr =
      if land32 r H.CTRL_REG1_RST ≠ 0 then
        resetWaitLoop H rs (tr ++ [Event.readByte H.CTRL_REG1 r, Event.sleep5ms])
      else some (rs, tr ++ [Event.readByte H.CTRL_REG1 r]) := rfl

theorem oneShotLoop_cons (H : Header) (r : Int) (rs : List Int) (reg : Nat) (tr : List Event) :
    oneShotLoop H (r :: rs) reg tr =
      if reg.testBit H.ostBit then
        oneShotLoop H rs (toU8 r) (tr ++ [Event.sleep5ms, Event.readByte H.CTRL_REG1 r])
      else some (reg, r :: rs, tr) := rfl

theorem read_sleepReads (reg : Nat) (v : Int) (vs : List Int) (r : Int) :
    Event.readByte reg v :: sleepReads reg (vs ++ [r]) = polls reg (v :: vs) ++ [Event.readByte reg r] := by
  induction vs generalizing v with
  | nil => simp [sleepReads, polls]
  | cons u us ih =>
    rw [List.cons_append, sleepReads_cons, ih u, polls_cons reg v]
    simp

theorem awaitLoop_run (H : Header) (m : Nat) (pre : List Int) (s : Int) (rest : List Int)
    (tr : List Event) (hpre : ∀ v ∈ pre, land32 v m = 0) (hs : land32 s m ≠ 0) :
    awaitLoop H m (pre ++ s :: rest) tr =
      some (rest, tr ++ polls H.STATUS pre ++ [Event.readByte H.STATUS s]) := by
  induction pre generalizing tr with
  | nil => simp [awaitLoop, hs, polls]
  | cons v vs ih =>
    have hv := hpre v (by simp)
    have hvs : ∀ u ∈ vs, land32 u m = 0 := fun u hu => hpre u (by simp [hu])
    rw [List.cons_append, awaitLoop_cons, if_pos hv, ih _ hvs, polls_cons]
    simp

theorem resetWaitLoop_run (H : Header) (pre : List Int) (s : Int) (rest : List Int)
    (tr : List Event) (hpre : ∀ v ∈ pre, land32 v H.CTRL_REG1_RST ≠ 0)
    (hs : land32 s H.CTRL_REG1_RST = 0) :
    resetWaitLoop H (pre ++ s :: rest) tr =
      some (rest, tr ++ polls H.CTRL_REG1 pre ++ [Event.readByte H.CTRL_REG1 s]) := by
  induction pre generalizing tr with
  | nil => simp [resetWaitLoop, hs, polls]
  | cons v vs ih =>
    have hv := hpre v (by simp)
    have hvs : ∀ u ∈ vs, land32 u H.CTRL_REG1_RST ≠ 0 := fun u hu => hpre u (by simp [hu])
    rw [List.cons_append, resetWaitLoop_cons, if_pos hv, ih _ hvs, polls_cons]
    simp

theorem oneShotLoop_exit (H : Header) (rs : List Int) (reg : Nat) (tr : List Event)
    (h : reg.testBit H.ostBit = false) : oneShotLoop H rs reg tr = some (reg, rs, tr) := by
  cases rs <;> simp [oneShotLoop, h]

theorem oneShotLoop_run (H : Header) (pre : List Int) (r : Int) (rest : List Int) (reg : Nat)
    (tr : List Event) (hreg : reg.testBit H.ostBit = true)
    (hpre : ∀ v ∈ pre, (toU8 v).testBit H.ostBit = true)
    (hr : (toU8 r).testBit H.ostBit = false) :
    oneShotLoop H (pre ++ r :: rest) reg tr =
      some (toU8 r, rest, tr ++ sleepReads H.CTRL_REG1 (pre ++ [r])) := by
  induction pre generalizing reg tr with
  | nil =>
    rw [List.nil_append, oneShotLoop_cons, if_pos hreg, oneShotLoop_exit H _ _ _ hr]
    simp [sleepReads]
  | cons v vs ih =>
    have hv := hpre v (by simp)
    have hvs : ∀ u ∈ vs, (toU8 u).testBit H.ostBit = true := fun u hu => hpre u (by simp [hu])
    rw [List.cons_append, oneShotLoop_cons, if_pos hreg, ih _ _ hv hvs, List.cons_append,
      sleepReads_cons]
    simp

/-- A run of `_one_shot` on a device that shows the one-shot bit set on the
reads `pre` and clear on the read `r`. -/
theorem one_shot_run (H : Header) (d : Driver) (w : Bus) (pre : List Int) (r : Int)
    (rest : List Int) (hbytes : w.bytes = pre ++ r :: rest)
    (hpre : ∀ v ∈ pre, (toU8 v).testBit H.ostBit = true)
    (hr : (toU8 r).testBit H.ostBit = false) :
    _one_shot H d w = some
      ({ d with ctrl_reg1 := assignBit (toU8 r) H.ostBit 1 },
       { w with
          bytes := rest,
          trace := w.trace ++ polls H.CTRL_REG1 pre ++
            [Event.readByte H.CTRL_REG1 r,
             Event.writeByte H.CTRL_REG1 (assignBit (toU8 r) H.ostBit 1)] }) := by
  cases pre with
  | nil =>
    simp only [List.nil_append] at hbytes
    simp [_one_shot, readByteData, hbytes, oneShotLoop_exit H _ _ _ hr, writeByteData, Bus.log,
      polls, Nat.mod_eq_of_lt (assignBit_lt _ _ _)]
  | cons v vs =>
    have hv := hpre v (by simp)
    have hvs : ∀ u ∈ vs, (toU8 u).testBit H.ostBit = true := fun u hu => hpre u (by simp [hu])
    simp only [List.cons_append] at hbytes
    simp only [_one_shot, readByteData, hbytes, oneShotLoop_run H vs r rest _ _ hv hvs hr]
    have := read_sleepReads H.CTRL_REG1 v vs r
    simp [writeByteData, Bus.log, Nat.mod_eq_of_lt (assignBit_lt _ _ _), this]

/-- A run of `_await_completion` on a device whose status reads `pre` show none
of the requested bits and whose next read `s` shows one. -/
theorem await_completion_run (H : Header) (m : Nat) (w : Bus) (pre : List Int) (s : Int)
    (rest : List Int) (hbytes : w.bytes = pre ++ s :: rest)
    (hpre : ∀ v ∈ pre, land32 v m = 0) (hs : land32 s m ≠ 0) :
    _await_completion H m w = some
      { w with
          bytes := rest,
          trace := w.trace ++ polls H.STATUS pre ++ [Event.readByte H.STATUS s] } := by
  simp [_await_completion, hbytes, awaitLoop_run H m pre s rest _ hpre hs]

theorem polls_countP_read (reg : Nat) (vs : List Int) :
    (polls reg vs).countP (Event.isReadOf reg) = vs.length := by
  induction vs with
  | nil => rfl
  | cons v vs ih => simp [polls_cons, Event.isReadOf, ih]

theorem polls_countP_write (reg : Nat) (vs : List Int) :
    (polls reg vs).countP Event.isWrite = 0 := by
  induction vs with
  | nil => rfl
  | cons v vs ih => simp [polls_cons, Event.isWrite, ih]

theorem polls_countP_block (reg : Nat) (vs : List Int) :
    (polls reg vs).countP Event.isBlockRead = 0 := by
  induction vs with
  | nil => rfl
  | cons v vs ih => simp [polls_cons, Event.isBlockRead, ih]

theorem set_mode_run (H : Header) (mode : Nat) (d : Driver) (w : Bus) (r0 : Int)
    (rest : List Int) (hbytes : w.bytes = r0 :: rest) :
    _set_mode H mode d w = some
      ({ d with ctrl_reg1 := assignBit (toU8 r0) H.altBit mode },
       { w with bytes := rest, trace := w.trace ++ modeTrace H r0 mode }) := by
  simp [_set_mode, readByteData, hbytes, writeByteData, Bus.log, modeTrace,
    Nat.mod_eq_of_lt (assignBit_lt _ _ _)]

theorem acquire_run (H : Header) (d : Driver) (w : Bus) (pre : List Int) (r : Int)
    (spre : List Int) (s : Int) (rest : List Int) (blk : Option Block)
    (brest : List (Option Block))
    (hbytes : w.bytes = pre ++ r :: (spre ++ s :: rest)) (hblocks : w.blocks = blk :: brest)
    (hpre : ∀ v ∈ pre, (toU8 v).testBit H.ostBit = true)
    (hr : (toU8 r).testBit H.ostBit = false)
    (hspre : ∀ v ∈ spre, land32 v H.defaultStatus = 0)
    (hs : land32 s H.defaultStatus ≠ 0) :
    acquire H d w = some
      ({ d with ctrl_reg1 := assignBit (toU8 r) H.ostBit 1, buffer := blk.getD d.buffer },
       { w with
          bytes := rest, blocks := brest,
          trace := w.trace ++ acquireTrace H pre r spre s blk }) := by
  unfold acquire
  rw [one_shot_run H d w pre r _ hbytes hpre hr]
  simp only
  rw [await_completion_run H H.defaultStatus _ spre s rest rfl hspre hs]
  simp [readBlockData, hblocks, acquireTrace]

theorem pressure_run (H : Header) (d : Driver) (w : Bus) (r0 : Int) (pre : List Int) (r : Int)
    (spre : List Int) (s : Int) (rest : List Int) (blk : Option Block)
    (brest : List (Option Block))
    (hbytes : w.bytes = r0 :: (pre ++ r :: (spre ++ s :: rest)))
    (hblocks : w.blocks = blk :: brest)
    (hpre : ∀ v ∈ pre, (toU8 v).testBit H.ostBit = true)
    (hr : (toU8 r).testBit H.ostBit = false)
    (hspre : ∀ v ∈ spre, land32 v H.defaultStatus = 0)
    (hs : land32 s H.defaultStatus ≠ 0) :
    pressure H d w = some
      ((pressureRaw (blk.getD d.buffer), pressureValue (blk.getD d.buffer)),
       { d with ctrl_reg1 := assignBit (toU8 r) H.ostBit 1, buffer := blk.getD d.buffer },
       { w with
          bytes := rest, blocks := brest,
          trace := w.trace ++ modeTrace H r0 0 ++ acquireTrace H pre r spre s blk }) := by
  unfold pressure
  rw [set_mode_run H 0 d w r0 _ hbytes]
  simp only
  rw [acquire_run H _ _ pre r spre s rest blk brest rfl (by exact hblocks) hpre hr hspre hs]

theorem altitude_run (H : Header) (d : Driver) (w : Bus) (r0 : Int) (pre : List Int) (r : Int)
    (spre : List Int) (s : Int) (rest : List Int) (blk : Option Block)
    (brest : List (Option Block))
    (hbytes : w.bytes = r0 :: (pre ++ r :: (spre ++ s :: rest)))
    (hblocks : w.blocks = blk :: brest)
    (hpre : ∀ v ∈ pre, (toU8 v).testBit H.ostBit = true)
    (hr : (toU8 r).testBit H.ostBit = false)
    (hspre : ∀ v ∈ spre, land32 v H.defaultStatus = 0)
    (hs : land32 s H.defaultStatus ≠ 0) :
    altitude H d w = some
      ((altitudeRaw (blk.getD d.buffer), altitudeValue (blk.getD d.buffer)),
       { d with ctrl_reg1 := assignBit (toU8 r) H.ostBit 1, buffer := blk.getD d.buffer },
       { w with
          bytes := rest, blocks := brest,
          trace := w.trace ++ modeTrace H r0 1 ++ acquireTrace H pre r spre s blk }) := by
  unfold altitude
  rw [set_mode_run H 1 d w r0 _ hbytes]
  simp only
  rw [acquire_run H _ _ pre r spre s rest blk brest rfl (by exact hblocks) hpre hr hspre hs]

theorem temperature_run (H : Header) (d : Driver) (w : Bus) (pre : List Int) (r : Int)
    (spre : List Int) (s : Int) (rest : List Int) (blk : Option Block)
    (brest : List (Option Block))
    (hbytes : w.bytes = pre ++ r :: (spre ++ s :: rest))
    (hblocks : w.blocks = blk :: brest)
    (hpre : ∀ v ∈ pre, (toU8 v).testBit H.ostBit = true)
    (hr : (toU8 r).testBit H.ostBit = false)
    (hspre : ∀ v ∈ spre, land32 v H.defaultStatus = 0)
    (hs : land32 s H.defaultStatus ≠ 0) :
    temperature H d w = some
      ((temperatureRaw (blk.getD d.buffer), temperatureValue (blk.getD d.buffer)),
       { d with ctrl_reg1 := assignBit (toU8 r) H.ostBit 1, buffer := blk.getD d.buffer },
       { w with
          bytes := rest, blocks := brest,
          trace := w.trace ++ acquireTrace H pre r spre s blk }) := by
  unfold temperature
  rw [acquire_run H _ _ pre r spre s rest blk brest hbytes hblocks hpre hr hspre hs]

theorem resetWaitLoop_pending (H : Header) (us : List Int) (tr : List Event)
    (hus : ∀ u ∈ us, land32 u H.CTRL_REG1_RST ≠ 0) : resetWaitLoop H us tr = none := by
  induction us generalizing tr with
  | nil => rfl
  | cons u us ih =>
    rw [resetWaitLoop_cons, if_pos (hus u (by simp))]
    exact ih _ (fun x hx => hus x (by simp [hx]))

theorem awaitLoop_last_read (H : Header) (m : Nat) (bs : List Int) (tr : List Event)
    (rs : List Int) (tr1 : List Event) (h : awaitLoop H m bs tr = some (rs, tr1)) :
    ∃ t v, tr1 = t ++ [Event.readByte H.STATUS v] ∧ land32 v m ≠ 0 := by
  induction bs generalizing tr with
  | nil => simp [awaitLoop] at h
  | cons b bs ih =>
    rw [awaitLoop_cons] at h
    by_cases hb : land32 b m = 0
    · rw [if_pos hb] at h
      exact ih _ h
    · rw [if_neg hb] at h
      simp only [Option.some.injEq, Prod.mk.injEq] at h
      exact ⟨tr, b, h.2.symm, hb⟩

theorem land32_map_ofNat (m : Nat) (pre : List Nat) (hlt : ∀ v ∈ pre, v < 256)
    (hand : ∀ v ∈ pre, v &&& m = 0) :
    ∀ u ∈ pre.map Int.ofNat, land32 u m = 0 := by
  intro u hu
  obtain ⟨v, hv, rfl⟩ := List.mem_map.mp hu
  rw [show Int.ofNat v = (v : Int) from rfl, land32_ofNat (hlt v hv), hand v hv]

/-! ## Decoding of the output block -/

/-- C1, as stated, fails at its own witness: on the data sheet constants, a
call of `pressure()` whose block read delivers 1,0,0,0x19,0x80 returns the raw
integer 65536 and the `float` 10737418/2^20, which is not 65536/6400 = 10.24. -/
theorem pressure_value_not_exact_quotient :
    (pressure datasheet sampleDriver
        (sampleBus [0xB8, 0x38, 0x08] [some ⟨1, 0, 0, 0x19, 0x80⟩])).map (fun res => res.1) =
      some (65536, 10737418 / 1048576) ∧
    (10737418 / 1048576 : ℚ) ≠ 65536 / 6400 := by
  constructor
  · rw [pressure_run datasheet sampleDriver _ 0xB8 [] 0x38 [] 0x08 []
      (some ⟨1, 0, 0, 0x19, 0x80⟩) [] rfl rfl (by decide) (by decide) (by decide) (by decide)]
    have hraw : pressureRaw ⟨1, 0, 0, 0x19, 0x80⟩ = 65536 := by decide
    have hf : pressureFloat 65536 = ⟨10737418, 20⟩ := by decide
    simp only [Option.map_some', Option.getD_some, pressureValue, hraw, hf, Dyadic.toRat]
    norm_num
  · norm_num

/-- C1, amended: for every 5-byte output block of bytes delivered by the block
read, `pressure()` returns the raw integer b0*65536 + b1*256 + b2 divided by
6400 in floating point: the integer is converted to `float`, which is exact,
divided by 6400.0 in `double` and rounded to `float` on return, and the value
returned is within 2^-12 of the exact quotient. The unsigned 32-bit sum does
not wrap: it is below 2^24. The exact quotient is below 2^12 and, unless it is
zero, above 2^-13. The value depends on b0, b1 and b2 only. The all-zero block
gives 0 and a block 1,0,0,_,_ gives 10737418/2^20, the `float` nearest to
65536/6400 = 10.24. -/
theorem pressure_decode (H : Header) (d : Driver) (w : Bus) (r0 : Int) (pre : List Int)
    (r : Int) (spre : List Int) (s : Int) (rest : List Int) (b : Block)
    (brest : List (Option Block)) (hb : b.valid)
    (hbytes : w.bytes = r0 :: (pre ++ r :: (spre ++ s :: rest)))
    (hblocks : w.blocks = some b :: brest)
    (hpre : ∀ v ∈ pre, (toU8 v).testBit H.ostBit = true)
    (hr : (toU8 r).testBit H.ostBit = false)
    (hspre : ∀ v ∈ spre, land32 v H.defaultStatus = 0)
    (hs : land32 s H.defaultStatus ≠ 0) :
    (∃ d1 w1, pressure H d w = some
      ((b.b0 * 65536 + b.b1 * 256 + b.b2,
        (floatOfDouble (doubleDiv (floatOfU32 (b.b0 * 65536 + b.b1 * 256 + b.b2)) 6400)).toRat),
       d1, w1)) ∧
    b.b0 * 65536 + b.b1 * 256 + b.b2 < 2 ^ 24 ∧
    (floatOfU32 (b.b0 * 65536 + b.b1 * 256 + b.b2)).toRat =
      ((b.b0 * 65536 + b.b1 * 256 + b.b2 : ℕ) : ℚ) ∧
    |(floatOfDouble (doubleDiv (floatOfU32 (b.b0 * 65536 + b.b1 * 256 + b.b2)) 6400)).toRat -
        ((b.b0 * 65536 + b.b1 * 256 + b.b2 : ℕ) : ℚ) / 6400| < 1 / 4096 ∧
    ((b.b0 * 65536 + b.b1 * 256 + b.b2 : ℕ) : ℚ) / 6400 < 4096 ∧
    (b.b0 * 65536 + b.b1 * 256 + b.b2 ≠ 0 →
      (1 : ℚ) / 8192 < ((b.b0 * 65536 + b.b1 * 256 + b.b2 : ℕ) : ℚ) / 6400) ∧
    (∀ c : Block, c.b0 = b.b0 → c.b1 = b.b1 → c.b2 = b.b2 →
      pressureValue c = pressureValue b) ∧
    (∀ x y : Nat, pressureValue ⟨0, 0, 0, x, y⟩ = 0) ∧
    (∀ x y : Nat, pressureValue ⟨1, 0, 0, x, y⟩ = 10737418 / 1048576) ∧
    (∀ x y : Nat, |pressureValue ⟨1, 0, 0, x, y⟩ - 1024 / 100| = 3 / 13107200) := by
  have hlt : b.b0 * 65536 + b.b1 * 256 + b.b2 < 2 ^ 24 := by
    obtain ⟨h0, h1, h2, -, -⟩ := hb
    omega
  have hq : ((b.b0 * 65536 + b.b1 * 256 + b.b2 : ℕ) : ℚ) < 16777216 := by exact_mod_cast hlt
  have h1 : ∀ x y : Nat, pressureValue ⟨1, 0, 0, x, y⟩ = 10737418 / 1048576 := by
    intro x y
    have hraw : pressureRaw ⟨1, 0, 0, x, y⟩ = 65536 := by norm_num [pressureRaw, u32]
    have hf : pressureFloat 65536 = ⟨10737418, 20⟩ := by decide
    simp only [pressureValue, hraw, hf, Dyadic.toRat]
    norm_num
  refine ⟨?_, hlt, floatOfU32_exact _ hlt, pressureFloat_err _ hlt, ?_, ?_, ?_, ?_, h1, ?_⟩
  · rw [pressure_run H d w r0 pre r spre s rest (some b) brest hbytes hblocks hpre hr hspre hs]
    simp only [Option.getD_some, pressureValue, pressureRaw_eq b hb, pressureFloat]
    exact ⟨_, _, rfl⟩
  · rw [div_lt_iff₀ (by norm_num)]
    linarith
  · intro hne
    have : (1 : ℚ) ≤ ((b.b0 * 65536 + b.b1 * 256 + b.b2 : ℕ) : ℚ) := by
      exact_mod_cast Nat.one_le_iff_ne_zero.mpr hne
    rw [lt_div_iff₀ (by norm_num)]
    linarith
  · intro c h0 h1 h2
    simp only [pressureValue, pressureRaw, h0, h1, h2]
  · intro x y
    have hraw : pressureRaw ⟨0, 0, 0, x, y⟩ = 0 := by norm_num [pressureRaw, u32]
    have hf : pressureFloat 0 = ⟨0, 0⟩ := by decide
    simp only [pressureValue, hraw, hf, Dyadic.toRat]
    norm_num
  · intro x y
    rw [h1 x y]
    norm_num [abs_of_neg]

/-- Witness of C1 amended: on the data sheet constants, a call whose block read
delivers 1,0,0,0x19,0x80 returns the raw integer 65536 and the `float` obtained
from it. -/
theorem pressure_decode_witness :
    ∃ d1 w1, pressure datasheet sampleDriver
        (sampleBus [0xB8, 0xB8, 0x08] [some ⟨1, 0, 0, 0x19, 0x80⟩]) =
      some ((65536, (floatOfDouble (doubleDiv (floatOfU32 65536) 6400)).toRat), d1, w1) :=
  (pressure_decode datasheet sampleDriver
    (sampleBus [0xB8, 0xB8, 0x08] [some ⟨1, 0, 0, 0x19, 0x80⟩]) 0xB8 [] 0xB8 [] 0x08 []
    ⟨1, 0, 0, 0x19, 0x80⟩ [] (by decide) rfl rfl (by decide) (by decide) (by decide)
    (by decide)).1

/-- C2: for every 5-byte output block of bytes delivered by the block read,
`altitude()` returns the raw integer b0*16777216 + b1*65536 + b2*256 divided by
65536. The raw integer is an unsigned 32-bit quantity that does not wrap: it is
at most 4294967040, the value of the block 0xFF,0xFF,0xFF,_,_. The result is
never negative, also when the top bit of b0
is set: a block 0xFF,0,0,_,_ gives 65280. A block 0,1,0,_,_ gives 1. -/
theorem altitude_decode (H : Header) (d : Driver) (w : Bus) (r0 : Int) (pre : List Int)
    (r : Int) (spre : List Int) (s : Int) (rest : List Int) (b : Block)
    (brest : List (Option Block)) (hb : b.valid)
    (hbytes : w.bytes = r0 :: (pre ++ r :: (spre ++ s :: rest)))
    (hblocks : w.blocks = some b :: brest)
    (hpre : ∀ v ∈ pre, (toU8 v).testBit H.ostBit = true)
    (hr : (toU8 r).testBit H.ostBit = false)
    (hspre : ∀ v ∈ spre, land32 v H.defaultStatus = 0)
    (hs : land32 s H.defaultStatus ≠ 0) :
    (∃ d1 w1, altitude H d w = some
      ((b.b0 * 16777216 + b.b1 * 65536 + b.b2 * 256,
        ((b.b0 * 16777216 + b.b1 * 65536 + b.b2 * 256 : ℕ) : ℚ) / 65536), d1, w1)) ∧
    b.b0 * 16777216 + b.b1 * 65536 + b.b2 * 256 ≤ 4294967040 ∧
    (4294967040 : ℕ) < 2 ^ 32 ∧
    (∀ x y : Nat, altitudeRaw ⟨0xFF, 0xFF, 0xFF, x, y⟩ = 4294967040) ∧
    (0 : ℚ) ≤ altitudeValue b ∧
    (∀ x y : Nat, altitudeValue ⟨0xFF, 0, 0, x, y⟩ = 65280) ∧
    (∀ x y : Nat, altitudeValue ⟨0, 1, 0, x, y⟩ = 1) := by
  refine ⟨?_, ?_, by norm_num, ?_, ?_, ?_, ?_⟩
  · rw [altitude_run H d w r0 pre r spre s rest (some b) brest hbytes hblocks hpre hr hspre hs]
    simp only [Option.getD_some, altitudeValue, altitudeRaw_eq b hb]
    exact ⟨_, _, rfl⟩
  · obtain ⟨h0, h1, h2, -, -⟩ := hb
    omega
  · intro x y
    norm_num [altitudeRaw, u32]
  · unfold altitudeValue
    positivity
  · intro x y
    norm_num [altitudeValue, altitudeRaw, u32]
  · intro x y
    norm_num [altitudeValue, altitudeRaw, u32]

/-- Witness of C2: on the data sheet constants, a call whose block read delivers
0xFF,0,0,0,0 returns the raw integer 4278190080 and the value 4278190080/65536. -/
theorem altitude_decode_witness :
    ∃ d1 w1, altitude datasheet sampleDriver
        (sampleBus [0xB8, 0xB8, 0x08] [some ⟨0xFF, 0, 0, 0, 0⟩]) =
      some ((4278190080, ((4278190080 : ℕ) : ℚ) / 65536), d1, w1) :=
  (altitude_decode datasheet sampleDriver
    (sampleBus [0xB8, 0xB8, 0x08] [some ⟨0xFF, 0, 0, 0, 0⟩]) 0xB8 [] 0xB8 [] 0x08 []
    ⟨0xFF, 0, 0, 0, 0⟩ [] (by decide) rfl rfl (by decide) (by decide) (by decide)
    (by decide)).1

/-- C3: for every 5-byte output block of bytes delivered by the block read,
`temperature()` returns the raw integer b3*256 + b4 divided by 256. The value
depends on b3 and b4 only, lies in [0, 256) and is never negative: with
b3 = 0xFF it is at least 255. A block _,_,_,0x19,0x80 gives 25.5. -/
theorem temperature_decode (H : Header) (d : Driver) (w : Bus) (pre : List Int)
    (r : Int) (spre : List Int) (s : Int) (rest : List Int) (b : Block)
    (brest : List (Option Block)) (hb : b.valid)
    (hbytes : w.bytes = pre ++ r :: (spre ++ s :: rest))
    (hblocks : w.blocks = some b :: brest)
    (hpre : ∀ v ∈ pre, (toU8 v).testBit H.ostBit = true)
    (hr : (toU8 r).testBit H.ostBit = false)
    (hspre : ∀ v ∈ spre, land32 v H.defaultStatus = 0)
    (hs : land32 s H.defaultStatus ≠ 0) :
    (∃ d1 w1, temperature H d w = some
      ((b.b3 * 256 + b.b4, ((b.b3 * 256 + b.b4 : ℕ) : ℚ) / 256), d1, w1)) ∧
    (∀ c : Block, c.b3 = b.b3 → c.b4 = b.b4 → temperatureValue c = temperatureValue b) ∧
    (0 : ℚ) ≤ temperatureValue b ∧ temperatureValue b < 256 ∧
    (b.b3 = 0xFF → (255 : ℚ) ≤ temperatureValue b) ∧
    (∀ x y z : Nat, temperatureValue ⟨x, y, z, 0x19, 0x80⟩ = 51 / 2) := by
  have hraw := temperatureRaw_eq b hb
  obtain ⟨-, -, -, h3, h4⟩ := hb
  refine ⟨?_, ?_, ?_, ?_, ?_, ?_⟩
  · rw [temperature_run H d w pre r spre s rest (some b) brest hbytes hblocks hpre hr hspre hs]
    simp only [Option.getD_some, temperatureValue, hraw]
    exact ⟨_, _, rfl⟩
  · intro c h3 h4
    simp only [temperatureValue, temperatureRaw, h3, h4]
  · unfold temperatureValue
    positivity
  · unfold temperatureValue
    rw [hraw, div_lt_iff₀ (by norm_num)]
    have : b.b3 * 256 + b.b4 < 256 * 256 := by omega
    exact_mod_cast this
  · intro h
    unfold temperatureValue
    rw [hraw, le_div_iff₀ (by norm_num)]
    have : 255 * 256 ≤ b.b3 * 256 + b.b4 := by omega
    exact_mod_cast this
  · intro x y z
    norm_num [temperatureValue, temperatureRaw, u32]

/-- Witness of C3: on the data sheet constants, a call whose block read delivers
0,0,0,0x19,0x80 returns the raw integer 6528 and the value 6528/256. -/
theorem temperature_decode_witness :
    ∃ d1 w1, temperature datasheet sampleDriver
        (sampleBus [0xB8, 0x08] [some ⟨0, 0, 0, 0x19, 0x80⟩]) =
      some ((6528, ((6528 : ℕ) : ℚ) / 256), d1, w1) :=
  (temperature_decode datasheet sampleDriver
    (sampleBus [0xB8, 0x08] [some ⟨0, 0, 0, 0x19, 0x80⟩]) [] 0xB8 [] 0x08 []
    ⟨0, 0, 0, 0x19, 0x80⟩ [] (by decide) rfl rfl (by decide) (by decide) (by decide)
    (by decide)).1

/-! ## Construction -/

/-- The constructor on a device whose identity register does not read 0xC4:
the exception is thrown after the identity read, no write has been issued, and
the handle that `open` returned is still among the open handles. -/
theorem construct_unexpected_device (H : Header) (smbus : Int) (address : Nat)
    (fd io : Int) (buffer : Block) (w : Bus) (who : Int) (rest : List Int)
    (hfd : 0 ≤ fd) (hio : 0 ≤ io) (hwho : toU8 who ≠ 0xc4) (hbytes : w.bytes = who :: rest) :
    construct H smbus address fd io buffer w = some
      (Except.error Error.notAMPL3115A2,
       { w with
          handles := fd :: w.handles, bytes := rest,
          trace := w.trace ++
            [Event.openDev smbus fd, Event.ioctlSlave (address % 256 &&& 0x7f) io,
             Event.readByte H.WHO_AM_I who] }) := by
  simp [construct, Bus.log, readByteData, hbytes, hwho, not_lt.mpr hfd, not_lt.mpr hio]

/-- C4: construction on bus 1, address 0x60, where `open` returns handle 3,
the address binds and WHO_AM_I reads 0x00. The constructor throws
"Not a MPL3115A2" and has issued no write, but handle 3, which was not open
before, is open afterwards: the set of open handles has changed. On the same
bus with WHO_AM_I reading 0xC4, construction followed by the destructor leaves
no handle open. -/
theorem construct_wrong_identity_leaks_handle :
    construct datasheet 1 0x60 3 0 ⟨0, 0, 0, 0, 0⟩ ⟨[], [0x00], [], []⟩ = some
      (Except.error Error.notAMPL3115A2,
       ⟨[3], [], [],
        [Event.openDev 1 3, Event.ioctlSlave 0x60 0, Event.readByte 0x0C 0x00]⟩) ∧
    (3 : Int) ∉ ([] : List Int) ∧
    (construct datasheet 1 0x60 3 0 ⟨0, 0, 0, 0, 0⟩ ⟨[], [0xC4, 0x00], [], []⟩).map
        (fun p =>
          match p.1 with
          | Except.ok d => (destruct d p.2).handles
          | Except.error _ => p.2.handles) = some [] :=
  ⟨rfl, by decide, rfl⟩

/-- C6: on a device that accepts the open, the address bind and the identity
check, the constructor writes the reset bit to CTRL_REG1 and, when the device
shows the reset bit set on the reads `pre` and clear on the next read `v`,
issues exactly `pre.length + 1` reads of CTRL_REG1 between the reset write and
the oversampling/altimeter configuration write, then the two configuration
writes, and returns the driver. While every read shows the reset bit set the
constructor does not return. -/
theorem construct_reset_handshake (H : Header) (smbus : Int) (address : Nat) (fd io : Int)
    (buffer : Block) (w : Bus) (who : Int) (pre : List Int) (v : Int) (rest : List Int)
    (hfd : 0 ≤ fd) (hio : 0 ≤ io) (hwho : toU8 who = 0xc4)
    (hpre : ∀ u ∈ pre, land32 u H.CTRL_REG1_RST ≠ 0) (hv : land32 v H.CTRL_REG1_RST = 0) :
    (w.bytes = who :: (pre ++ v :: rest) →
      construct H smbus address fd io buffer w = some
        (Except.ok ⟨fd, address % 256, (H.CTRL_REG1_OS128 ||| H.CTRL_REG1_ALT) % 256, buffer⟩,
         { w with
            handles := fd :: w.handles, bytes := rest,
            trace := w.trace ++
              [Event.openDev smbus fd, Event.ioctlSlave (address % 256 &&& 0x7f) io,
               Event.readByte H.WHO_AM_I who,
               Event.writeByte H.CTRL_REG1 (H.CTRL_REG1_RST % 256)] ++
              (polls H.CTRL_REG1 pre ++ [Event.readByte H.CTRL_REG1 v]) ++
              [Event.writeByte H.CTRL_REG1 ((H.CTRL_REG1_OS128 ||| H.CTRL_REG1_ALT) % 256),
               Event.writeByte H.PT_DATA_CFG
                 ((H.PT_DATA_CFG_TDEFE ||| H.PT_DATA_CFG_PDEFE ||| H.PT_DATA_CFG_DREM)
                   % 256)] })) ∧
    (polls H.CTRL_REG1 pre ++ [Event.readByte H.CTRL_REG1 v]).countP
        (Event.isReadOf H.CTRL_REG1) = pre.length + 1 ∧
    (polls H.CTRL_REG1 pre ++ [Event.readByte H.CTRL_REG1 v]).countP Event.isWrite = 0 ∧
    (w.bytes = who :: pre → construct H smbus address fd io buffer w = none) := by
  refine ⟨?_, ?_, ?_, ?_⟩
  · intro hbytes
    simp [construct, Bus.log, readByteData, hbytes, hwho, not_lt.mpr hfd, not_lt.mpr hio,
      writeByteData, resetWait, resetWaitLoop_run H pre v rest _ hpre hv]
  · simp [List.countP_append, polls_countP_read, Event.isReadOf]
  · simp [List.countP_append, polls_countP_write, Event.isWrite]
  · intro hbytes
    simp [construct, Bus.log, readByteData, hbytes, hwho, not_lt.mpr hfd, not_lt.mpr hio,
      writeByteData, resetWait, resetWaitLoop_pending H pre _ hpre]

/-- Witness of C6: on the data sheet constants, a device that shows the reset
bit set on two reads and clear on the third. -/
theorem construct_reset_handshake_witness :
    construct datasheet 1 0x60 3 0 ⟨0, 0, 0, 0, 0⟩ ⟨[], [0xC4, 0x04, 0x04, 0x00], [], []⟩ =
      some
        (Except.ok ⟨3, 0x60, 0xB8, ⟨0, 0, 0, 0, 0⟩⟩,
         ⟨[3], [], [],
          [Event.openDev 1 3, Event.ioctlSlave 0x60 0, Event.readByte 0x0C 0xC4,
           Event.writeByte 0x26 0x04,
           Event.readByte 0x26 0x04, Event.sleep5ms,
           Event.readByte 0x26 0x04, Event.sleep5ms,
           Event.readByte 0x26 0x00,
           Event.writeByte 0x26 0xB8, Event.writeByte 0x13 0x07]⟩) :=
  (construct_reset_handshake datasheet 1 0x60 3 0 ⟨0, 0, 0, 0, 0⟩
    ⟨[], [0xC4, 0x04, 0x04, 0x00], [], []⟩ 0xC4 [0x04, 0x04] 0x00 [] (by decide) (by decide)
    (by decide) (by decide) (by decide)).1 rfl

/-! ## Mode selection, trigger and completion wait -/

/-- C7: `_set_mode(mode)` is a read-modify-write of CTRL_REG1. For every byte
`r` the register read returns and every mode in 0, 1 it issues the read and one
write; the byte written has the altitude-mode bit equal to `mode` and every
other bit equal to that bit of `r`; the outcome does not depend on the content
of the shadow register before the call. -/
theorem set_mode_read_modify_write (H : Header) (mode : Nat) (d : Driver) (w : Bus) (r : Nat)
    (rest : List Int) (hmode : mode = 0 ∨ mode = 1) (hr : r < 256)
    (hbytes : w.bytes = (r : Int) :: rest) :
    ∃ x : Nat,
      _set_mode H mode d w = some
        ({ d with ctrl_reg1 := x },
         { w with
            bytes := rest,
            trace := w.trace ++
              [Event.readByte H.CTRL_REG1 r, Event.writeByte H.CTRL_REG1 x] }) ∧
      x < 256 ∧
      x.testBit H.altBit = decide (mode = 1) ∧
      (∀ i : Nat, i ≠ H.altBit.val → x.testBit i = r.testBit i) ∧
      (∀ shadow : Nat,
        _set_mode H mode { d with ctrl_reg1 := shadow } w = _set_mode H mode d w) := by
  refine ⟨assignBit r H.altBit mode, ?_, assignBit_lt _ _ _, ?_, ?_, ?_⟩
  · rw [set_mode_run H mode d w r rest hbytes]
    simp only [modeTrace, toU8_ofNat hr]
  · rw [assignBit_testBit, if_pos rfl]
    rcases hmode with h | h <;> simp [h]
  · intro i hi
    rw [assignBit_testBit, if_neg hi]
    by_cases h8 : i < 8
    · simp [h8]
    · have hlt : r < 2 ^ i := by
        have : 2 ^ 8 ≤ 2 ^ i := Nat.pow_le_pow_right (by norm_num) (by omega)
        omega
      simp [h8, Nat.testBit_lt_two_pow hlt]
  · intro shadow
    rw [set_mode_run H mode d w r rest hbytes,
      set_mode_run H mode { d with ctrl_reg1 := shadow } w r rest hbytes]

/-- Witness of C7: on the data sheet constants, the register reads 0xBA
(altitude mode, oversampling 128, one-shot set) and barometer mode is asked
for: 0x3A is written back. -/
theorem set_mode_read_modify_write_witness :
    ∃ x : Nat,
      _set_mode datasheet 0 sampleDriver (sampleBus [0xBA] []) = some
        ({ sampleDriver with ctrl_reg1 := x },
         { sampleBus [0xBA] [] with
            bytes := [],
            trace := (sampleBus [0xBA] []).trace ++
              [Event.readByte datasheet.CTRL_REG1 (0xBA : Nat),
               Event.writeByte datasheet.CTRL_REG1 x] }) ∧
      x < 256 ∧
      x.testBit datasheet.altBit = decide (0 = 1) ∧
      (∀ i : Nat, i ≠ datasheet.altBit.val → x.testBit i = Nat.testBit 0xBA i) ∧
      (∀ shadow : Nat,
        _set_mode datasheet 0 { sampleDriver with ctrl_reg1 := shadow } (sampleBus [0xBA] []) =
          _set_mode datasheet 0 sampleDriver (sampleBus [0xBA] [])) :=
  set_mode_read_modify_write datasheet 0 sampleDriver (sampleBus [0xBA] []) 0xBA []
    (Or.inl rfl) (by decide) rfl

/-- C8: `_one_shot` does not set the trigger bit while it is still set. On a
device that shows the one-shot bit set on the reads `pre` of CTRL_REG1 and then
returns the byte `r` with the bit clear, it issues exactly `pre.length + 1`
reads and no write before them, then exactly one write, whose value has the
one-shot bit set and every other bit equal to that bit of `r`. -/
theorem one_shot_waits_then_triggers (H : Header) (d : Driver) (w : Bus) (pre : List Int)
    (r : Nat) (rest : List Int) (hr256 : r < 256)
    (hbytes : w.bytes = pre ++ (r : Int) :: rest)
    (hpre : ∀ v ∈ pre, (toU8 v).testBit H.ostBit = true)
    (hr : r.testBit H.ostBit = false) :
    ∃ x : Nat,
      _one_shot H d w = some
        ({ d with ctrl_reg1 := x },
         { w with
            bytes := rest,
            trace := w.trace ++
              (polls H.CTRL_REG1 pre ++ [Event.readByte H.CTRL_REG1 r]) ++
              [Event.writeByte H.CTRL_REG1 x] }) ∧
      (polls H.CTRL_REG1 pre ++ [Event.readByte H.CTRL_REG1 r]).countP
          (Event.isReadOf H.CTRL_REG1) = pre.length + 1 ∧
      (polls H.CTRL_REG1 pre ++ [Event.readByte H.CTRL_REG1 r]).countP Event.isWrite = 0 ∧
      x < 256 ∧
      x.testBit H.ostBit = true ∧
      (∀ i : Nat, i ≠ H.ostBit.val → x.testBit i = r.testBit i) := by
  have hu : toU8 (r : Int) = r := toU8_ofNat hr256
  refine ⟨assignBit r H.ostBit 1, ?_, ?_, ?_, assignBit_lt _ _ _, ?_, ?_⟩
  · rw [one_shot_run H d w pre r rest hbytes hpre (by rw [hu]; exact hr), hu]
    simp
  · simp [List.countP_append, polls_countP_read, Event.isReadOf]
  · simp [List.countP_append, polls_countP_write, Event.isWrite]
  · rw [assignBit_testBit, if_pos rfl]
    simp
  · intro i hi
    rw [assignBit_testBit, if_neg hi]
    by_cases h8 : i < 8
    · simp [h8]
    · have hlt : r < 2 ^ i := by
        have : 2 ^ 8 ≤ 2 ^ i := Nat.pow_le_pow_right (by norm_num) (by omega)
        omega
      simp [h8, Nat.testBit_lt_two_pow hlt]

/-- Witness of C8: on the data sheet constants, the one-shot bit reads set
twice (0xBA) and then clear (0xB8): three reads, then the write of 0xBA. -/
theorem one_shot_waits_then_triggers_witness :
    ∃ x : Nat,
      _one_shot datasheet sampleDriver (sampleBus [0xBA, 0xBA, 0xB8, 0x55] []) = some
        ({ sampleDriver with ctrl_reg1 := x },
         ⟨[3], [0x55], [],
          [Event.readByte 0x26 0xBA, Event.sleep5ms, Event.readByte 0x26 0xBA,
           Event.sleep5ms, Event.readByte 0x26 0xB8, Event.writeByte 0x26 x]⟩) ∧
      x.testBit 1 = true ∧ (∀ i : Nat, i ≠ 1 → x.testBit i = Nat.testBit 0xB8 i) := by
  obtain ⟨x, h, -, -, -, hx, hi⟩ := one_shot_waits_then_triggers datasheet sampleDriver
    (sampleBus [0xBA, 0xBA, 0xB8, 0x55] []) [0xBA, 0xBA] 0xB8 [0x55] (by decide) rfl
    (by decide) (by decide)
  exact ⟨x, h, hx, hi⟩

/-- C9: `_await_completion(status_mask)` returns exactly when a status read
has at least one requested bit set. When the status reads give the bytes `pre`,
none of which has a requested bit, and then the byte `s`, which has one, it
issues exactly `pre.length + 1` reads of STATUS and no write, and returns.
Whenever it returns, the last operation is a status read whose value has a
requested bit set. -/
theorem await_completion_polls (H : Header) (mask : Nat) (w : Bus) (pre : List Nat) (s : Nat)
    (rest : List Int) (hpre256 : ∀ v ∈ pre, v < 256) (hs256 : s < 256)
    (hbytes : w.bytes = pre.map Int.ofNat ++ (s : Int) :: rest)
    (hpre : ∀ v ∈ pre, v &&& mask = 0) (hs : s &&& mask ≠ 0) :
    _await_completion H mask w = some
      { w with
          bytes := rest,
          trace := w.trace ++
            (polls H.STATUS (pre.map Int.ofNat) ++ [Event.readByte H.STATUS s]) } ∧
    (polls H.STATUS (pre.map Int.ofNat) ++ [Event.readByte H.STATUS s]).countP
        (Event.isReadOf H.STATUS) = pre.length + 1 ∧
    (polls H.STATUS (pre.map Int.ofNat) ++ [Event.readByte H.STATUS s]).countP
        Event.isWrite = 0 ∧
    (∀ w0 w1 : Bus, _await_completion H mask w0 = some w1 →
      ∃ t v, w1.trace = t ++ [Event.readByte H.STATUS v] ∧ land32 v mask ≠ 0) := by
  refine ⟨?_, ?_, ?_, ?_⟩
  · rw [await_completion_run H mask w (pre.map Int.ofNat) s rest hbytes
      (land32_map_ofNat mask pre hpre256 hpre) (by rw [land32_ofNat hs256]; exact hs)]
    simp
  · simp [List.countP_append, polls_countP_read, Event.isReadOf]
  · simp [List.countP_append, polls_countP_write, Event.isWrite]
  · intro w0 w1 h
    unfold _await_completion at h
    cases hl : awaitLoop H mask w0.bytes w0.trace with
    | none => simp [hl] at h
    | some p =>
      obtain ⟨rs, tr1⟩ := p
      simp only [hl, Option.map_some', Option.some.injEq] at h
      obtain ⟨t, v, ht, hv⟩ := awaitLoop_last_read H mask _ _ _ _ hl
      exact ⟨t, v, by rw [← h]; exact ht, hv⟩

/-- Witness of C9: on the data sheet constants with mask 0x0E, status reads
0x00, 0x00 and then 0x0E: three reads, no write. -/
theorem await_completion_polls_witness :
    _await_completion datasheet 0x0E (sampleBus [0x00, 0x00, 0x0E, 0x55] []) = some
      ⟨[3], [0x55], [],
       [Event.readByte 0x00 0x00, Event.sleep5ms, Event.readByte 0x00 0x00, Event.sleep5ms,
        Event.readByte 0x00 0x0E]⟩ :=
  (await_completion_polls datasheet 0x0E (sampleBus [0x00, 0x00, 0x0E, 0x55] []) [0, 0] 0x0E
    [0x55] (by decide) (by decide) rfl (by decide) (by decide)).1

/-! ## Failed reads in the polling loops -/

/-- C10, as stated, fails for the completion wait: on the data sheet constants
with the non-zero mask 0x0E, the first status read fails with -1 and
`_await_completion` returns at once: one read, no sleep, and the next result
0x0E is not read. -/
theorem await_completion_returns_on_failed_read :
    _await_completion datasheet 0x0E (sampleBus [-1, 0x0E] []) =
      some ⟨[3], [0x0E], [], [Event.readByte 0x00 (-1)]⟩ := by
  decide

/-- C10, amended: a failed register read, returning -1, is not told apart from
a value with every bit set. In the reset wait of the constructor and in the
trigger wait of `_one_shot` it counts as not ready: the loop sleeps and reads
again. In `_await_completion` with a non-zero mask it counts as ready: the loop
is left after that read and the caller goes on. -/
theorem failed_read_in_polling_loops (H : Header) (d : Driver) (w : Bus) (mask : Nat)
    (rs : List Int) (hrst : H.CTRL_REG1_RST ≠ 0) (hrst256 : H.CTRL_REG1_RST < 256)
    (hmask : mask ≠ 0) (hmask256 : mask < 256) (hbytes : w.bytes = -1 :: rs) :
    resetWait H w =
      resetWait H
        { w with
            bytes := rs,
            trace := w.trace ++ [Event.readByte H.CTRL_REG1 (-1), Event.sleep5ms] } ∧
    _one_shot H d w =
      _one_shot H d
        { w with
            bytes := rs,
            trace := w.trace ++ [Event.readByte H.CTRL_REG1 (-1), Event.sleep5ms] } ∧
    _await_completion H mask w = some
      { w with bytes := rs, trace := w.trace ++ [Event.readByte H.STATUS (-1)] } := by
  have h1 : land32 (-1) H.CTRL_REG1_RST ≠ 0 := by
    rw [land32_neg_one (by omega)]
    exact hrst
  have h2 : land32 (-1) mask ≠ 0 := by
    rw [land32_neg_one (by omega)]
    exact hmask
  have h3 : Nat.testBit 255 H.ostBit = true := by
    rw [testBit_255]
    simp [H.ostBit.isLt]
  refine ⟨?_, ?_, ?_⟩
  · simp only [resetWait, hbytes, resetWaitLoop_cons, if_pos h1]
  · simp only [_one_shot, readByteData, hbytes, toU8_neg_one]
    cases rs with
    | nil => simp [oneShotLoop, h3]
    | cons r1 rs1 => simp [oneShotLoop_cons, h3]
  · simp only [_await_completion, hbytes, awaitLoop_cons, if_neg h2, Option.map_some']

/-- Witness of C10 amended, on the data sheet constants: the completion wait
with mask 0x0E returns after the failed read. -/
theorem failed_read_in_polling_loops_witness :
    _await_completion datasheet 0x0E (sampleBus [-1, 0x00] []) =
      some ⟨[3], [0x00], [], [Event.readByte 0x00 (-1)]⟩ :=
  (failed_read_in_polling_loops datasheet sampleDriver (sampleBus [-1, 0x00] []) 0x0E [0x00]
    (by decide) (by decide) (by decide) (by decide) rfl).2.2

/-! ## The measurement pipeline -/

/-- C5, as stated, fails when a block read fails: on the data sheet constants,
two calls of `pressure()` in sequence, the block read of the first delivering
1,0,0,0x19,0x80 and the block read of the second failing. The second call ends
with its own (failed) block read and returns the raw integer 65536 of the
first call, decoded from the buffer contents the first call left. -/
theorem pressure_decodes_stale_buffer :
    ((pressure datasheet sampleDriver
        (sampleBus [0xB8, 0x38, 0x08, 0x38, 0x38, 0x08]
          [some ⟨1, 0, 0, 0x19, 0x80⟩, none])).bind fun r1 =>
      (pressure datasheet r1.2.1 r1.2.2).map fun r2 =>
        (r1.1.1, r2.1.1, r2.2.2.trace.getLast?)) =
      some (65536, 65536, some (Event.readBlock 0x01 5 none)) := by
  decide

/-- C5, amended: every call of `pressure()`, `altitude()` or `temperature()`,
from every driver state and on every device that lets the two waits end, runs
the pipeline in this order: for pressure a CTRL_REG1 write with the
altitude-mode bit clear, for altitude one with the bit set, for temperature no
mode write; then, after the reads that wait for the one-shot bit to be clear,
exactly one CTRL_REG1 write that sets the one-shot bit; then the status reads;
then exactly one block read of 5 bytes at OUT_P_MSB. The value returned is
decoded from the buffer as it is after that block read: from the block `b` of
that same call when the read delivers one (`blk = some b`), and from the
contents `d.buffer` left before the call when the read fails (`blk = none`). -/
theorem measurement_pipeline (H : Header) (d : Driver) (w : Bus) (r0 : Int) (pre : List Int)
    (r : Int) (spre : List Int) (s : Int) (rest : List Int) (blk : Option Block)
    (brest : List (Option Block)) (hblocks : w.blocks = blk :: brest)
    (hpre : ∀ v ∈ pre, (toU8 v).testBit H.ostBit = true)
    (hr : (toU8 r).testBit H.ostBit = false)
    (hspre : ∀ v ∈ spre, land32 v H.defaultStatus = 0)
    (hs : land32 s H.defaultStatus ≠ 0) :
    (w.bytes = r0 :: (pre ++ r :: (spre ++ s :: rest)) →
      pressure H d w = some
        ((pressureRaw (blk.getD d.buffer), pressureValue (blk.getD d.buffer)),
         { d with ctrl_reg1 := assignBit (toU8 r) H.ostBit 1, buffer := blk.getD d.buffer },
         { w with
            bytes := rest, blocks := brest,
            trace := w.trace ++
              [Event.readByte H.CTRL_REG1 r0,
               Event.writeByte H.CTRL_REG1 (assignBit (toU8 r0) H.altBit 0)] ++
              acquireTrace H pre r spre s blk })) ∧
    (w.bytes = r0 :: (pre ++ r :: (spre ++ s :: rest)) →
      altitude H d w = some
        ((altitudeRaw (blk.getD d.buffer), altitudeValue (blk.getD d.buffer)),
         { d with ctrl_reg1 := assignBit (toU8 r) H.ostBit 1, buffer := blk.getD d.buffer },
         { w with
            bytes := rest, blocks := brest,
            trace := w.trace ++
              [Event.readByte H.CTRL_REG1 r0,
               Event.writeByte H.CTRL_REG1 (assignBit (toU8 r0) H.altBit 1)] ++
              acquireTrace H pre r spre s blk })) ∧
    (w.bytes = pre ++ r :: (spre ++ s :: rest) →
      temperature H d w = some
        ((temperatureRaw (blk.getD d.buffer), temperatureValue (blk.getD d.buffer)),
         { d with ctrl_reg1 := assignBit (toU8 r) H.ostBit 1, buffer := blk.getD d.buffer },
         { w with
            bytes := rest, blocks := brest,
            trace := w.trace ++ acquireTrace H pre r spre s blk })) ∧
    (assignBit (toU8 r0) H.altBit 0).testBit H.altBit = false ∧
    (assignBit (toU8 r0) H.altBit 1).testBit H.altBit = true ∧
    acquireTrace H pre r spre s blk =
      polls H.CTRL_REG1 pre ++
        [Event.readByte H.CTRL_REG1 r,
         Event.writeByte H.CTRL_REG1 (assignBit (toU8 r) H.ostBit 1)] ++
      polls H.STATUS spre ++
        [Event.readByte H.STATUS s, Event.readBlock H.OUT_P_MSB 5 blk] ∧
    (assignBit (toU8 r) H.ostBit 1).testBit H.ostBit = true ∧
    (acquireTrace H pre r spre s blk).countP Event.isWrite = 1 ∧
    (acquireTrace H pre r spre s blk).countP Event.isBlockRead = 1 := by
  refine ⟨?_, ?_, ?_, ?_, ?_, rfl, ?_, ?_, ?_⟩
  · intro hbytes
    rw [pressure_run H d w r0 pre r spre s rest blk brest hbytes hblocks hpre hr hspre hs]
    rfl
  · intro hbytes
    rw [altitude_run H d w r0 pre r spre s rest blk brest hbytes hblocks hpre hr hspre hs]
    rfl
  · intro hbytes
    rw [temperature_run H d w pre r spre s rest blk brest hbytes hblocks hpre hr hspre hs]
  · rw [assignBit_testBit, if_pos rfl]
    simp
  · rw [assignBit_testBit, if_pos rfl]
    simp
  · rw [assignBit_testBit, if_pos rfl]
    simp
  · simp [acquireTrace, List.countP_append, polls_countP_write, Event.isWrite]
  · simp [acquireTrace, List.countP_append, polls_countP_block, Event.isBlockRead]

/-- Witness of C5 amended, on the data sheet constants: a call of `altitude()`
where CTRL_REG1 reads 0x38, then 0xBA (one-shot still set), then 0xB8, where
STATUS reads 0x00 and then 0x0E, and the block read delivers 0,1,0,0x19,0x80. -/
theorem measurement_pipeline_witness :
    altitude datasheet sampleDriver
        (sampleBus [0x38, 0xBA, 0xB8, 0x00, 0x0E] [some ⟨0, 1, 0, 0x19, 0x80⟩]) =
      some
        ((65536, altitudeValue ⟨0, 1, 0, 0x19, 0x80⟩),
         ⟨3, 0x60, 0xBA, ⟨0, 1, 0, 0x19, 0x80⟩⟩,
         ⟨[3], [], [],
          [Event.readByte 0x26 0x38, Event.writeByte 0x26 0xB8,
           Event.readByte 0x26 0xBA, Event.sleep5ms, Event.readByte 0x26 0xB8,
           Event.writeByte 0x26 0xBA,
           Event.readByte 0x00 0x00, Event.sleep5ms, Event.readByte 0x00 0x0E,
           Event.readBlock 0x01 5 (some ⟨0, 1, 0, 0x19, 0x80⟩)]⟩) :=
  (measurement_pipeline datasheet sampleDriver
    (sampleBus [0x38, 0xBA, 0xB8, 0x00, 0x0E] [some ⟨0, 1, 0, 0x19, 0x80⟩]) 0x38 [0xBA] 0xB8
    [0x00] 0x0E [] (some ⟨0, 1, 0, 0x19, 0x80⟩) [] rfl (by decide) (by decide) (by decide)
    (by decide)).2.1 rfl

end MPL3115A2
